import Mathlib

/-
Verification of the question-extraction engine of an LMS quiz extractor.

The engine (class QuestionExtractor in app.py) parses a quiz-review page,
locates question containers (div.que), extracts and cleans the prompt text,
classifies each question by its answer controls (radio / select / checkbox /
text input / textarea) and produces one structured record per container.

This file gives a shallow embedding of that engine: the parsed page is a
tree of nodes (BeautifulSoup operates on the parsed tree; its parser is
deterministic, so we model pages at tree level), Python string and regex
operations are modelled by executable Lean functions, and each extractor
method is translated into a Lean definition of the same name.
-/

namespace Lms

/-! ### Python string primitives -/

/-- Python whitespace characters (the ASCII ones recognised by str.strip,
str.isspace and the regex class backslash-s). -/
def pySpace (c : Char) : Bool :=
  c = ' ' || c = '\t' || c = '\n' || c = '\r' || c = '\x0b' || c = '\x0c'

/-- Python str.strip on a character list: drop whitespace at both ends. -/
def pyStripList (cs : List Char) : List Char :=
  ((cs.dropWhile pySpace).reverse.dropWhile pySpace).reverse

/-- Python str.strip on strings. -/
def pyStrip (s : String) : String :=
  String.mk (pyStripList s.toList)

/-- Python str.lower (ASCII fragment, which is all the code relies on). -/
def lowerStr (s : String) : String :=
  String.mk (s.toList.map Char.toLower)

/-- Case-sensitive: cs starts with pat. -/
def startsWithList : List Char → List Char → Bool
  | [], _ => true
  | _ :: _, [] => false
  | p :: ps, c :: cs => p = c && startsWithList ps cs

/-- Case-insensitive: cs starts with pat, where pat is given in lowercase. -/
def startsWithCI : List Char → List Char → Bool
  | [], _ => true
  | _ :: _, [] => false
  | p :: ps, c :: cs => p = c.toLower && startsWithCI ps cs

/-- Python substring containment (the `in` operator on str). -/
def listContains (hay needle : List Char) : Bool :=
  match hay with
  | [] => needle.isEmpty
  | _ :: t => startsWithList needle hay || listContains t needle

/-- Python substring containment on strings: `needle in hay`. -/
def strContains (hay needle : String) : Bool :=
  listContains hay.toList needle.toList

/-! ### The regex operations used by the extractor

Each `re.sub` in the source uses one concrete pattern; we model each one by
a dedicated scanner implementing Python's leftmost, left-to-right global
substitution for that pattern.  Scanners that can skip more than one
character per step take a fuel argument (initialised to the input length)
so that they are structurally recursive and evaluate inside the kernel. -/

/-- One match attempt, at the head of cs, of the pattern
Question backslash-s+ backslash-d+ backslash-s* (re.IGNORECASE):
the literal "question" case-insensitively, one or more whitespace,
one or more digits, then any whitespace; returns the rest after the
(greedy) match. -/
def matchQN (cs : List Char) : Option (List Char) :=
  if startsWithCI ("question".toList) cs then
    match cs.drop 8 with
    | [] => none
    | c :: r1 =>
      if pySpace c then
        match (c :: r1).dropWhile pySpace with
        | [] => none
        | d :: r2 =>
          if d.isDigit then
            some (((d :: r2).dropWhile Char.isDigit).dropWhile pySpace)
          else none
      else none
  else none

theorem dropWhile_len_le (p : Char → Bool) (l : List Char) :
    (l.dropWhile p).length ≤ l.length :=
  (List.dropWhile_suffix p).length_le

theorem matchQN_length {cs rem : List Char} (h : matchQN cs = some rem) :
    rem.length < cs.length := by
  unfold matchQN at h
  split at h
  · split at h
    next => exact absurd h (by simp)
    next c r1 heq =>
      split at h
      next hsp =>
        split at h
        next heq2 => exact absurd h (by simp)
        next d r2 heq2 =>
          split at h
          next hd =>
            have hrem : rem = ((d :: r2).dropWhile Char.isDigit).dropWhile pySpace :=
              (Option.some.inj h).symm
            have hlc : (c :: r1).length = cs.length - 8 := by
              have h' := congrArg List.length heq
              simpa [List.length_drop] using h'.symm
            have h9 : 9 ≤ cs.length := by
              simp only [List.length_cons] at hlc
              omega
            have l1 : (d :: r2).length ≤ (c :: r1).length := by
              rw [← heq2]
              exact dropWhile_len_le _ _
            have l2 : ((d :: r2).dropWhile Char.isDigit).length ≤ r2.length := by
              rw [List.dropWhile_cons_of_pos hd]
              exact dropWhile_len_le _ _
            have l3 : rem.length ≤ ((d :: r2).dropWhile Char.isDigit).length := by
              rw [hrem]
              exact dropWhile_len_le _ _
            simp only [List.length_cons] at hlc l1
            omega
          next => exact absurd h (by simp)
      next => exact absurd h (by simp)
  · exact absurd h (by simp)

/-- Fueled scanner for re.sub of the Question-number pattern with the empty
replacement: at each position, replace a match and continue after it,
otherwise keep the character. -/
def subQNAux : Nat → List Char → List Char
  | 0, _ => []
  | _ + 1, [] => []
  | fuel + 1, c :: rest =>
    match matchQN (c :: rest) with
    | some rem => subQNAux fuel rem
    | none => c :: subQNAux fuel rest

/-- re.sub(r"Question backslash-s+ backslash-d+ backslash-s*", "", text,
flags=re.IGNORECASE): global, left to right. -/
def subQN (cs : List Char) : List Char := subQNAux cs.length cs

theorem subQNAux_eq_subQN :
    ∀ (f : Nat) (cs : List Char), cs.length ≤ f → subQNAux f cs = subQN cs := by
  intro f
  induction f using Nat.strong_induction_on with
  | _ f ih =>
    intro cs hle
    match f, cs with
    | 0, [] => rfl
    | g + 1, [] => rfl
    | g + 1, c :: rest =>
      show subQNAux (g + 1) (c :: rest) = subQNAux (rest.length + 1) (c :: rest)
      simp only [subQNAux]
      cases hm : matchQN (c :: rest) with
      | some rem =>
        have hlt := matchQN_length hm
        simp only [List.length_cons] at hle hlt
        show subQNAux g rem = subQNAux rest.length rem
        have e1 : subQNAux g rem = subQN rem := ih g (by omega) rem (by omega)
        have e2 : subQNAux rest.length rem = subQN rem :=
          ih rest.length (by omega) rem (by omega)
        rw [e1, e2]
      | none =>
        simp only [List.length_cons] at hle
        show c :: subQNAux g rest = c :: subQNAux rest.length rest
        have e1 : subQNAux g rest = subQN rest := ih g (by omega) rest (by omega)
        have e2 : subQNAux rest.length rest = subQN rest :=
          ih rest.length (by omega) rest (by omega)
        rw [e1, e2]

/-- Marker scanner modelling re.sub(marker + ".*?$") on newline-free text
(the prompt pipeline collapses all whitespace to single spaces first, so no
newline remains): everything from the leftmost case-insensitive occurrence
of any marker to the end of the string is removed.  Markers are given
lowercase. -/
def cutToEnd (markers : List (List Char)) : List Char → List Char
  | [] => []
  | c :: rest =>
    if markers.any (fun m => startsWithCI m (c :: rest)) then []
    else c :: cutToEnd markers rest

/-- One match attempt of "Instructions?:" (re.IGNORECASE) at the head:
the literal "instruction", an optional "s", then a colon. -/
def matchInstr (cs : List Char) : Option (List Char) :=
  if startsWithCI ("instruction".toList) cs then
    match cs.drop 11 with
    | [] => none
    | c :: r1 =>
      if c = ':' then some r1
      else if c.toLower = 's' then
        match r1 with
        | c2 :: r2 => if c2 = ':' then some r2 else none
        | [] => none
      else none
  else none

theorem matchInstr_length {cs rem : List Char} (h : matchInstr cs = some rem) :
    rem.length < cs.length := by
  unfold matchInstr at h
  split at h
  · split at h
    next => exact absurd h (by simp)
    next c r1 heq =>
      have hlc : (c :: r1).length = cs.length - 11 := by
        have h' := congrArg List.length heq
        simpa [List.length_drop] using h'.symm
      have h12 : 12 ≤ cs.length := by
        simp only [List.length_cons] at hlc
        omega
      split at h
      next hc =>
        have : rem = r1 := (Option.some.inj h).symm
        subst this
        simp only [List.length_cons] at hlc
        omega
      next hc =>
        split at h
        next hs =>
          split at h
          next c2 r2 =>
            split at h
            next hc2 =>
              have : rem = r2 := (Option.some.inj h).symm
              subst this
              simp only [List.length_cons] at hlc
              omega
            next => exact absurd h (by simp)
          next => exact absurd h (by simp)
        next => exact absurd h (by simp)
  · exact absurd h (by simp)

/-- The search re.search(r"Instructions?: backslash-s* (.+?) (?=newline|$)")
succeeds on a string iff some occurrence of "instructions?:" is followed by
at least one non-newline character (backtracking through the whitespace
run makes any such character reachable). -/
def searchInstr : List Char → Bool
  | [] => false
  | c :: rest =>
    (match matchInstr (c :: rest) with
     | some r => r.any (fun ch => ch ≠ '\n') || searchInstr rest
     | none => searchInstr rest)

/-- Fueled scanner for re.sub(r"Instructions?:.*?(?=newline|$)", "", text):
at each occurrence the marker and everything up to the next newline (or the
end) is removed, and scanning continues at the newline. -/
def subInstrAux : Nat → List Char → List Char
  | 0, _ => []
  | _ + 1, [] => []
  | fuel + 1, c :: rest =>
    match matchInstr (c :: rest) with
    | some r => subInstrAux fuel (r.dropWhile (fun ch => ch ≠ '\n'))
    | none => c :: subInstrAux fuel rest

def subInstr (cs : List Char) : List Char := subInstrAux cs.length cs

/-- Fueled scanner for re.sub(literal, "", text, flags=re.IGNORECASE):
every case-insensitive occurrence of the (lowercase, nonempty) literal is
removed. -/
def scanRemoveAux (m : List Char) : Nat → List Char → List Char
  | 0, _ => []
  | _ + 1, [] => []
  | fuel + 1, c :: rest =>
    if startsWithCI m (c :: rest) then scanRemoveAux m fuel ((c :: rest).drop m.length)
    else c :: scanRemoveAux m fuel rest

def scanRemove (m : List Char) (cs : List Char) : List Char :=
  scanRemoveAux m cs.length cs

/-- Fueled scanner for re.sub(literal + ".*", "", text, flags=re.IGNORECASE):
from every case-insensitive occurrence of the literal everything up to the
next newline (exclusive) is removed. -/
def scanCutLineAux (m : List Char) : Nat → List Char → List Char
  | 0, _ => []
  | _ + 1, [] => []
  | fuel + 1, c :: rest =>
    if startsWithCI m (c :: rest) then
      scanCutLineAux m fuel (((c :: rest).drop m.length).dropWhile (fun ch => ch ≠ '\n'))
    else c :: scanCutLineAux m fuel rest

def scanCutLine (m : List Char) (cs : List Char) : List Char :=
  scanCutLineAux m cs.length cs

/-- Fueled scanner for re.sub(r"backslash-s+", " ", text): every maximal
whitespace run collapses to a single space. -/
def collapseAux : Nat → List Char → List Char
  | 0, _ => []
  | _ + 1, [] => []
  | fuel + 1, c :: rest =>
    if pySpace c then ' ' :: collapseAux fuel (rest.dropWhile pySpace)
    else c :: collapseAux fuel rest

def collapse (cs : List Char) : List Char := collapseAux cs.length cs

/-- ASCII alphanumeric, the class [a-zA-Z0-9]. -/
def isAlnum (c : Char) : Bool := c.isAlpha || c.isDigit

/-- re.sub(r"^[a-zA-Z0-9]\.\s*", "", text): a single leading enumeration
marker of the form "a." with following whitespace. -/
def stripLeadDot (cs : List Char) : List Char :=
  match cs with
  | a :: '.' :: rest => if isAlnum a then rest.dropWhile pySpace else cs
  | _ => cs

/-- re.sub(r"^\([a-zA-Z0-9]\)\s*", "", text): a leading "(a)" marker. -/
def stripLeadParen (cs : List Char) : List Char :=
  match cs with
  | '(' :: a :: ')' :: rest => if isAlnum a then rest.dropWhile pySpace else cs
  | _ => cs

/-- re.sub(r"^[a-zA-Z0-9]\)\s*", "", text): a leading "a)" marker. -/
def stripLeadParenR (cs : List Char) : List Char :=
  match cs with
  | a :: ')' :: rest => if isAlnum a then rest.dropWhile pySpace else cs
  | _ => cs

/-- re.sub(r"^\d+\.\s*", "", text): a leading ordinal like "12." with
following whitespace. -/
def stripLeadNumDot (cs : List Char) : List Char :=
  match cs.takeWhile Char.isDigit with
  | [] => cs
  | ds =>
    match cs.drop ds.length with
    | '.' :: rest => rest.dropWhile pySpace
    | _ => cs

/-- re.sub(r"^[•\-]\s*", "", text): a leading bullet. -/
def stripLeadBullet (cs : List Char) : List Char :=
  match cs with
  | '•' :: rest => rest.dropWhile pySpace
  | '-' :: rest => rest.dropWhile pySpace
  | _ => cs

/-! ### The parsed page

A page is a tree of element tags (with attributes and children) and text
nodes, the structure BeautifulSoup exposes after parsing.  The child
sequence is a dedicated list type so that all traversals are structurally
recursive and reduce inside the kernel. -/

mutual
inductive Node where
  | text (s : String) : Node
  | elem (name : String) (attrs : List (String × String)) (children : NodeList) : Node

inductive NodeList where
  | nil : NodeList
  | cons (head : Node) (tail : NodeList) : NodeList
end

def NodeList.toList : NodeList → List Node
  | .nil => []
  | .cons h t => h :: t.toList

def NodeList.ofList : List Node → NodeList
  | [] => .nil
  | h :: t => .cons h (NodeList.ofList t)

/-- Element constructor taking an ordinary list of children. -/
def el (name : String) (attrs : List (String × String)) (cs : List Node) : Node :=
  .elem name attrs (NodeList.ofList cs)

/-- Tag.get(key): the attribute value, if the attribute is present. -/
def Node.getAttr (n : Node) (k : String) : Option String :=
  match n with
  | .text _ => none
  | .elem _ attrs _ => (attrs.find? (fun p => p.1 == k)).map (fun p => p.2)

/-- The tag name test used by find and find_all. -/
def Node.isNamed (n : Node) (nm : String) : Bool :=
  match n with
  | .text _ => false
  | .elem name _ _ => name == nm

def Node.childList (n : Node) : List Node :=
  match n with
  | .text _ => []
  | .elem _ _ cs => cs.toList

/-- Split a character list into maximal whitespace-free tokens. -/
def splitWsAux : List Char → List Char → List String
  | [], acc => if acc.isEmpty then [] else [String.mk acc.reverse]
  | c :: rest, acc =>
    if pySpace c then
      if acc.isEmpty then splitWsAux rest []
      else String.mk acc.reverse :: splitWsAux rest []
    else splitWsAux rest (c :: acc)

def splitWs (s : String) : List String := splitWsAux s.toList []

/-- The class_ filter of find/find_all: the class attribute is a
whitespace-separated token list and the filter matches when the wanted
class is one of the tokens. -/
def Node.hasClass (n : Node) (c : String) : Bool :=
  match n.getAttr "class" with
  | some v => (splitWs v).contains c
  | none => false

mutual
/-- All descendants of a node, in document (preorder) order, the iteration
order of find_all.  The node itself is not included, matching
BeautifulSoup. -/
def Node.descendants : Node → List Node
  | .text _ => []
  | .elem _ _ cs => cs.descAll

def NodeList.descAll : NodeList → List Node
  | .nil => []
  | .cons h t => h :: h.descendants ++ t.descAll
end

/-- find_all(pred) : matching descendants in document order. -/
def Node.findAll (n : Node) (p : Node → Bool) : List Node :=
  n.descendants.filter p

/-- find(pred) : the first matching descendant. -/
def Node.findFirst (n : Node) (p : Node → Bool) : Option Node :=
  n.descendants.find? p

mutual
/-- The NavigableString descendants of a node, in document order
(Tag.strings). -/
def Node.strings : Node → List String
  | .text s => [s]
  | .elem _ _ cs => cs.stringsAll

def NodeList.stringsAll : NodeList → List String
  | .nil => []
  | .cons h t => h.strings ++ t.stringsAll
end

/-- get_text(separator=sep, strip=True): strip every string, drop the ones
that become empty, join with the separator. -/
def Node.getTextStrip (n : Node) (sep : String) : String :=
  String.intercalate sep (((n.strings).map pyStrip).filter (fun s => s ≠ ""))

/-- get_text() with default arguments: concatenation of all strings. -/
def Node.getTextRaw (n : Node) : String :=
  String.join n.strings

mutual
/-- The copy-and-decompose idiom: a copy of the node in which every
(outermost) descendant satisfying p has been decomposed away. -/
def Node.prune (p : Node → Bool) : Node → Node
  | .text s => .text s
  | .elem name attrs cs => .elem name attrs (cs.pruneAll p)

def NodeList.pruneAll (p : Node → Bool) : NodeList → NodeList
  | .nil => .nil
  | .cons h t => if p h then t.pruneAll p else .cons (h.prune p) (t.pruneAll p)
end

mutual
/-- Structural equality of nodes, as implemented by Tag.__eq__ in
BeautifulSoup (same name, same attributes, same contents, recursively).
Attribute lists are compared in order, which agrees with dict equality on
the pages considered here. -/
def Node.beq : Node → Node → Bool
  | .text s, .text t => s == t
  | .elem n a c, .elem m b d => n == m && a == b && NodeList.beq c d
  | .text _, .elem _ _ _ => false
  | .elem _ _ _, .text _ => false

def NodeList.beq : NodeList → NodeList → Bool
  | .nil, .nil => true
  | .cons h t, .cons h2 t2 => Node.beq h h2 && NodeList.beq t t2
  | .nil, .cons _ _ => false
  | .cons _ _, .nil => false
end

/-- A located node: the node together with its ancestor chain (nearest
parent first, up to the page root) and its preceding and following
siblings.  This carries exactly the navigation data (find_parent,
next_sibling, previous siblings) the extractor uses. -/
structure Ctx where
  node : Node
  anc : List Node
  before : List Node
  after : List Node

mutual
/-- Contexts of all strict descendants of a node, in document order.
The argument anc is the ancestor chain of the node itself. -/
def Node.descCtx : Node → List Node → List Ctx
  | .text _, _ => []
  | .elem name attrs cs, anc =>
    NodeList.descCtxAux cs (Node.elem name attrs cs :: anc) []

def NodeList.descCtxAux : NodeList → List Node → List Node → List Ctx
  | .nil, _, _ => []
  | .cons h t, anc, before =>
    ⟨h, anc, before, t.toList⟩ ::
      (h.descCtx anc ++ NodeList.descCtxAux t anc (before ++ [h]))
end

/-! ### The extraction engine (class QuestionExtractor) -/

/-- The output record built for every question container.  The metadata
mapping is created empty and never written by the current logic. -/
structure Record where
  number : Nat
  type : String
  question_text : String
  choices : List String
  blanks : List String
  metadata : List (String × String)
deriving Repr, DecidableEq

/-- _clean_label_text: strip a leading "a." / "(a)" / "a)" enumeration
marker, strip whitespace, delete every occurrence of "Not yet answered"
and every "Marked out of…" run (case-insensitively), strip again. -/
def cleanLabelText (s : String) : String :=
  if s = "" then ""
  else
    let l1 := stripLeadDot s.toList
    let l2 := stripLeadParen l1
    let l3 := stripLeadParenR l2
    let l4 := pyStripList l3
    let l5 := scanRemove ("not yet answered".toList) l4
    let l6 := scanCutLine ("marked out of".toList) l5
    String.mk (pyStripList l6)

/-- _find_label_text: the five-strategy fallback chain resolving the label
text of an input control.  An empty string plays the role of the falsy
values (None or "") that make the Python code try the next strategy. -/
def findLabelText (root : Node) (c : Ctx) : Option String :=
  let s1 : String :=
    match c.node.getAttr "id" with
    | some id =>
      if id ≠ "" then
        match root.findFirst (fun n => n.isNamed "label" && n.getAttr "for" == some id) with
        | some lab => lab.getTextStrip ""
        | none => ""
      else ""
    | none => ""
  let s2 : String :=
    if s1 ≠ "" then s1
    else
      match c.anc.find? (fun a => a.isNamed "label") with
      | some plab => (plab.prune (fun n => n.isNamed "input")).getTextStrip ""
      | none => ""
  let s3 : String :=
    if s2 ≠ "" then s2
    else
      match c.anc.head? with
      | some par =>
        match par.findFirst (fun n => n.isNamed "label") with
        | some lab => lab.getTextStrip ""
        | none => ""
      | none => ""
  let s4 : String :=
    if s3 ≠ "" then s3
    else
      match c.anc.find? (fun a =>
          a.isNamed "div" || a.isNamed "span" || a.isNamed "td" || a.isNamed "li") with
      | some par => (par.prune (fun n => n.isNamed "input")).getTextStrip ""
      | none => ""
  let s5 : String :=
    if s4 ≠ "" then s4
    else
      match c.after.head? with
      | some (.text s) => if s ≠ "" then pyStrip s else ""
      | _ => ""
  if s5 = "" then none
  else
    let cl := cleanLabelText s5
    if cl = "" then none else some cl

/-- The label-resolution loop of _extract_radio_choices: resolve each
label, deduplicate by exact match, keeping first-seen order. -/
def radioChoicesOf (root : Node) (radios : List Ctx) : List String :=
  radios.foldl (fun acc r =>
    match findLabelText root r with
    | some l => if acc.contains l then acc else acc ++ [l]
    | none => acc) []

/-- The True/False test of _extract_radio_choices: exactly two choices and
the lowercased list contains both members of one of the three pairs. -/
def radioIsTF (choices : List String) : Bool :=
  let lows := choices.map lowerStr
  choices.length == 2 &&
    ((lows.contains "true" && lows.contains "false") ||
     (lows.contains "yes" && lows.contains "no") ||
     (lows.contains "correct" && lows.contains "incorrect"))

/-- _extract_radio_choices: resolve each radio label, deduplicate by exact
match in first-seen order, then classify True/False against the three
lowercased pairs, else Multiple Choice. -/
def extractRadioChoices (root : Node) (radios : List Ctx) (qd : Record) : Record :=
  let choices := radioChoicesOf root radios
  if radioIsTF choices then
    { qd with choices := choices, type := "True or False" }
  else
    { qd with choices := choices, type := "Multiple Choice" }

/-- _extract_options_from_select: keep options with nonempty text and
nonempty value attribute, drop placeholder phrases, deduplicate by exact
text in document order. -/
def extractOptionsFromSelect (sel : Node) : List String :=
  (sel.findAll (fun n => n.isNamed "option")).foldl (fun acc opt =>
    let txt := opt.getTextStrip ""
    let v := (opt.getAttr "value").getD ""
    if txt = "" || v = "" then acc
    else if (["choose...", "select...", "---", "please select"] : List String).contains
        (lowerStr txt) then acc
    else if acc.contains txt then acc
    else acc ++ [txt]) []

/-- Table strategy of _extract_matching_items: first cell text of every
row with at least two cells, selects removed, checked against choices
before the ordinal marker is stripped. -/
def matchingItemsTable (answerDiv : Node) (choices : List String) : List String :=
  match answerDiv.findFirst (fun n => n.isNamed "table") with
  | none => []
  | some table =>
    (table.findAll (fun n => n.isNamed "tr")).foldl (fun items row =>
      match row.findAll (fun n => n.isNamed "td" || n.isNamed "th") with
      | cell0 :: _ :: _ =>
        let term := (cell0.prune (fun n => n.isNamed "select")).getTextStrip ""
        if (term != "") && (!choices.contains term) && decide (1 < term.length) then
          let t2 := String.mk (pyStripList (stripLeadNumDot term.toList))
          if t2 != "" then items ++ [t2] else items
        else items
      | _ => items) []

/-- The direct_select probe of the block-sibling strategy.  The fallback
loop calls hasattr(child, "find") and then child.find("select"): for a tag
child this finds a descendant select, but for a string child str.find is
used, which returns the substring index, and the index is truthy unless it
is 0, that is unless the string literally starts with "select". -/
def containerHasDirectSelect (cont : Node) : Bool :=
  (cont.childList.find? (fun ch => ch.isNamed "select")).isSome
  || cont.childList.any (fun ch =>
      match ch with
      | .elem _ _ _ => (ch.findFirst (fun n => n.isNamed "select")).isSome
      | .text s => !startsWithList ("select".toList) s.toList)

/-- Block-sibling strategy of _extract_matching_items: every div, then
every li, then every p of the answer area that passes the direct-select
probe contributes its text with selects and "Choose" labels removed. -/
def matchingItemsBlocks (answerDiv : Node) (choices : List String) : List String :=
  let containers := answerDiv.findAll (fun n => n.isNamed "div")
    ++ answerDiv.findAll (fun n => n.isNamed "li")
    ++ answerDiv.findAll (fun n => n.isNamed "p")
  containers.foldl (fun items cont =>
    if containerHasDirectSelect cont then
      let c1 := cont.prune (fun n => n.isNamed "select")
      let c2 := c1.prune (fun n => n.isNamed "label" && strContains n.getTextRaw "Choose")
      let t0 := c2.getTextStrip ""
      let t3 := String.mk (pyStripList (stripLeadBullet (stripLeadNumDot t0.toList)))
      if (t3 != "") && (!choices.contains t3) && decide (1 < t3.length) &&
          (!startsWithList ("choose".toList) (lowerStr t3).toList) &&
          (!items.contains t3)
      then items ++ [t3] else items
    else items) []

/-- Preceding-sibling strategy of _extract_matching_items: for each select,
join the text of the siblings preceding it inside its parent (the loop
breaks at the first sibling equal to the select under Tag equality). -/
def matchingItemsSiblings (answerDiv : Node) (choices : List String) : List String :=
  let selCtxs := (answerDiv.descCtx []).filter (fun c => c.node.isNamed "select")
  selCtxs.foldl (fun items sc =>
    match sc.anc.head? with
    | none => items
    | some par =>
      let sibs := par.childList.takeWhile (fun ch => !Node.beq ch sc.node)
      let parts := sibs.map (fun sib =>
        match sib with
        | .elem _ _ _ => sib.getTextStrip ""
        | .text s => pyStrip s)
      let t0 := pyStrip (String.intercalate " " parts)
      let t2 := String.mk (stripLeadBullet (stripLeadNumDot t0.toList))
      if (t2 != "") && (!choices.contains t2) && decide (1 < t2.length) &&
          (!startsWithList ("choose".toList) (lowerStr t2).toList) &&
          (!items.contains t2)
      then items ++ [t2] else items) []

/-- _extract_matching_items: the three strategies in order, stopping at the
first that yields any item. -/
def extractMatchingItems (answerDiv : Node) (choices : List String) : List String :=
  let i1 := matchingItemsTable answerDiv choices
  if !i1.isEmpty then i1
  else
    let i2 := matchingItemsBlocks answerDiv choices
    if !i2.isEmpty then i2
    else matchingItemsSiblings answerDiv choices

/-- The matching attempt taken when the question text has a matching
keyword or there are at most 15 selection lists: succeeds when the items
recovered from the markup are nonempty and number at least N - 2. -/
def selectBranchA (selects : List Node) (answerDiv : Node) (qd : Record) :
    Option Record :=
  match selects with
  | [] => none
  | first :: rest =>
    let num := rest.length + 1
    let ql := lowerStr qd.question_text
    let isMatching := (["match", "matching", "connect", "pair", "correspond"] :
      List String).any (fun k => strContains ql k)
    if isMatching || decide (num ≤ 15) then
      let choices := extractOptionsFromSelect first
      let items := extractMatchingItems answerDiv choices
      if (!items.isEmpty) && decide (num - 2 ≤ items.length) then
        some { qd with type := "Matching Type", choices := choices, blanks := items }
      else none
    else none

/-- Python set equality of two option lists. -/
def setEq (a b : List String) : Bool :=
  a.all (fun x => b.contains x) && b.all (fun x => a.contains x)

/-- Whether all selection lists share the option set of the first. -/
def selectAllSame (selects : List Node) : Bool :=
  match selects with
  | [] => true
  | first :: rest =>
    let fo := extractOptionsFromSelect first
    rest.all (fun s => setEq (extractOptionsFromSelect s) fo)

/-- Python string comparison: lexicographic by code point. -/
def listLtB : List Char → List Char → Bool
  | [], [] => false
  | [], _ :: _ => true
  | _ :: _, [] => false
  | a :: as, b :: bs =>
    if a.toNat < b.toNat then true
    else if b.toNat < a.toNat then false
    else listLtB as bs

def strLeB (a b : String) : Bool := !listLtB b.toList a.toList

def insertStr (x : String) : List String → List String
  | [] => [x]
  | h :: t => if strLeB x h then x :: h :: t else h :: insertStr x t

/-- Insertion sort by the Python string order. -/
def sortStrings : List String → List String
  | [] => []
  | h :: t => insertStr h (sortStrings t)

/-- The distinct elements of l, first occurrences kept in order. -/
def dedupFirst : List String → List String
  | [] => []
  | h :: t => h :: (dedupFirst t).filter (fun x => x != h)

/-- sorted(list(set(l))): the ascending enumeration of the distinct
elements of l, which is what Python sorted applied to the materialised set
returns regardless of the set iteration order. -/
def sortedDistinct (l : List String) : List String :=
  sortStrings (dedupFirst l)

/-- _extract_select_choices.  The setOrder parameter models list(set(x)) in
the all-lists-identical matching branch: the iteration order of a Python
set is an implementation detail that is fixed for the lifetime of the
interpreter process, so it enters the model as an explicit parameter.  The
function is only ever called with a nonempty list of selection lists (its
caller dispatches on that list being nonempty); for the impossible empty
list the model returns the record unchanged. -/
def extractSelectChoices (setOrder : List String → List String)
    (selects : List Node) (answerDiv : Node) (qd : Record) : Record :=
  match selects with
  | [] => qd
  | first :: rest =>
    let num := rest.length + 1
    if num == 1 then
      { qd with type := "Dropdown Select", choices := extractOptionsFromSelect first }
    else
      match selectBranchA (first :: rest) answerDiv qd with
      | some r => r
      | none =>
        let firstOptions := extractOptionsFromSelect first
        if decide (1 < num) && selectAllSame (first :: rest) then
          let choices := setOrder firstOptions
          let items := extractMatchingItems answerDiv choices
          { qd with type := "Matching Type", choices := choices,
                    blanks := if !items.isEmpty then items
                      else (List.range num).map (fun i => "Item " ++ toString (i + 1)) }
        else
          { qd with type := "Fill in the Blank (Cloze)",
                    blanks := (List.range num).map (fun i => "Blank " ++ toString (i + 1)),
                    choices := sortedDistinct
                      ((List.map extractOptionsFromSelect (first :: rest)).flatten) }

/-- _extract_checkbox_choices: a question text containing "blank" makes
this a fill-in-the-blank checkbox variant with one synthetic placeholder
per distinct nonempty name attribute; labels are resolved, deduplicated,
and the UI labels "flag question" / "select all" are excluded. -/
def extractCheckboxChoices (root : Node) (cbs : List Ctx) (qd : Record) : Record :=
  let base :=
    if strContains (lowerStr qd.question_text) "blank" then
      let names := ((cbs.filterMap (fun c => c.node.getAttr "name")).filter
        (fun s => s ≠ "")).dedup
      { qd with
        blanks := (List.range names.length).map (fun i => "Blank " ++ toString (i + 1)),
        type := "Fill in the Blank (Checkbox)" }
    else { qd with type := "Multiple Select" }
  let choices := cbs.foldl (fun acc c =>
    match findLabelText root c with
    | some l =>
      if acc.contains l then acc
      else if (["flag question", "select all"] : List String).contains (lowerStr l) then acc
      else acc ++ [l]
    | none => acc) []
  { base with choices := choices }

/-- _classify_text_input: keyword test on the lowercased prompt. -/
def classifyTextInput (qd : Record) : Record :=
  let ql := lowerStr qd.question_text
  if (["identify", "who is", "what is", "name the", "who are", "what are",
       "give the name", "state the name", "mention the name"] : List String).any
      (fun k => strContains ql k)
  then { qd with type := "Identification" }
  else { qd with type := "Short Answer" }

/-- _clean_choices: strip each entry, drop empty entries and entries whose
lowercased form is "none" or "n/a", deduplicate by exact match keeping the
first occurrence.  The running seen list mirrors the seen set of the
source, which always holds exactly the entries already emitted. -/
def cleanChoicesGo (seen : List String) : List String → List String
  | [] => []
  | c0 :: rest =>
    let c := pyStrip c0
    if c.length < 1 then cleanChoicesGo seen rest
    else if (["", "none", "n/a"] : List String).contains (lowerStr c) then
      cleanChoicesGo seen rest
    else if seen.contains c then cleanChoicesGo seen rest
    else c :: cleanChoicesGo (c :: seen) rest

def cleanChoices (l : List String) : List String := cleanChoicesGo [] l

/-- _extract_question_text: find div.qtext, decompose scripts, styles,
noscript and iframes, take the visible text with single-space separation,
collapse whitespace, strip, then apply the four noise rules and the
instruction removal. -/
def extractQuestionText (qdiv : Node) : String :=
  match qdiv.findFirst (fun n => n.isNamed "div" && n.hasClass "qtext") with
  | none => ""
  | some qt =>
    let pruned := qt.prune (fun n =>
      n.isNamed "script" || n.isNamed "style" || n.isNamed "noscript" || n.isNamed "iframe")
    let t0 := (pruned.getTextStrip " ").toList
    let t1 := pyStripList (collapse t0)
    let t2 := subQN t1
    let t3 := cutToEnd ["not yet answered".toList] t2
    let t4 := cutToEnd ["marked out of".toList, "marke out of".toList] t3
    let t5 := cutToEnd ["flag question".toList] t4
    let t6 := if searchInstr t5 then pyStripList (subInstr t5) else t5
    String.mk (pyStripList t6)

/-- The per-class search of _find_answer_container: a div descendant
carrying the marker class. -/
def ansMarker (cls : String) (c : Ctx) : Bool :=
  c.node.isNamed "div" && c.node.hasClass cls

/-- _find_answer_container: the three marker classes in priority order,
falling back to the question container itself. -/
def findAnswerContainer (q : Ctx) : Ctx :=
  let dctx := q.node.descCtx q.anc
  match dctx.find? (ansMarker "answer") with
  | some c => c
  | none =>
    match dctx.find? (ansMarker "formulation") with
    | some c => c
    | none =>
      match dctx.find? (ansMarker "ablock") with
      | some c => c
      | none => q

/-- Truthiness of a Tag object: Tag.__bool__ in BeautifulSoup returns True
unconditionally (a found tag is never falsy), which is what the
"if not answer_div" guard tests. -/
def tagTruthy : Node → Bool := fun _ => true

/-- The radio controls of an answer area, as located contexts (document
order), answer_div.find_all("input", type="radio"). -/
def answerRadios (answer : Ctx) : List Ctx :=
  (answer.node.descCtx answer.anc).filter (fun c =>
    c.node.isNamed "input" && c.node.getAttr "type" == some "radio")

/-- answer_div.find_all("select"). -/
def answerSelects (answer : Ctx) : List Node :=
  answer.node.findAll (fun n => n.isNamed "select")

/-- answer_div.find_all("input", type="checkbox"), as located contexts. -/
def answerCheckboxes (answer : Ctx) : List Ctx :=
  (answer.node.descCtx answer.anc).filter (fun c =>
    c.node.isNamed "input" && c.node.getAttr "type" == some "checkbox")

/-- answer_div.find_all("input", type="text"). -/
def answerTextInputs (answer : Ctx) : List Node :=
  answer.node.findAll (fun n => n.isNamed "input" && n.getAttr "type" == some "text")

/-- answer_div.find_all("textarea"). -/
def answerTextareas (answer : Ctx) : List Node :=
  answer.node.findAll (fun n => n.isNamed "textarea")

/-- _detect_and_extract: the priority-ordered dispatch on the control kinds
present in the answer area; the first nonempty control list wins, and with
no controls at all the record is returned unchanged. -/
def detectAndExtract (setOrder : List String → List String) (root : Node)
    (answer : Ctx) (qd : Record) : Record :=
  if !(answerRadios answer).isEmpty then
    extractRadioChoices root (answerRadios answer) qd
  else if !(answerSelects answer).isEmpty then
    extractSelectChoices setOrder (answerSelects answer) answer.node qd
  else if !(answerCheckboxes answer).isEmpty then
    extractCheckboxChoices root (answerCheckboxes answer) qd
  else if !(answerTextInputs answer).isEmpty then
    classifyTextInput qd
  else if !(answerTextareas answer).isEmpty then
    { qd with type := "Essay" }
  else qd

/-- _parse_question: build the base record, extract the prompt, locate the
answer area (the guard on its truthiness is the code's "if not
answer_div"), dispatch, and run the final choice normalization. -/
def baseRecord (q : Ctx) (number : Nat) : Record :=
  { number := number, type := "Unknown",
    question_text := extractQuestionText q.node, choices := [], blanks := [],
    metadata := [] }

def parseQuestion (setOrder : List String → List String) (root : Node)
    (q : Ctx) (number : Nat) : Record :=
  let base := baseRecord q number
  let answer := findAnswerContainer q
  if !tagTruthy answer.node then base
  else
    let r := detectAndExtract setOrder root answer base
    { r with choices := cleanChoices r.choices }

/-- The question containers: find_all("div", class_="que") on the page. -/
def queCtxs (root : Node) : List Ctx :=
  (root.descCtx []).filter (fun c => c.node.isNamed "div" && c.node.hasClass "que")

/-- The extraction loop of extract_questions: enumerate containers from 1,
catch any per-container failure (modelled by an Except-valued parser) and
skip it, keep records with nonempty question text. -/
def extractLoop (parse : Nat → Ctx → Except Unit Record) :
    Nat → List Ctx → List Record
  | _, [] => []
  | i, d :: ds =>
    match parse i d with
    | .error _ => extractLoop parse (i + 1) ds
    | .ok r =>
      if r.question_text ≠ "" then r :: extractLoop parse (i + 1) ds
      else extractLoop parse (i + 1) ds

/-- extract_questions: the whole-page extraction call. -/
def extractQuestions (setOrder : List String → List String) (root : Node) :
    List Record :=
  let divs := queCtxs root
  if divs.isEmpty then []
  else extractLoop (fun i d => Except.ok (parseQuestion setOrder root d i)) 1 divs

/-- extract_questions together with its log output, with the show_output
flag: the flag only gates the two informational log lines. -/
def extractQuestionsRun (setOrder : List String → List String)
    (showOutput : Bool) (root : Node) : List Record × List String :=
  let pre := if showOutput then ["Extracting questions from HTML..."] else []
  let divs := queCtxs root
  if divs.isEmpty then ([], pre ++ ["No question containers found with class que"])
  else
    let recs := extractLoop (fun i d => Except.ok (parseQuestion setOrder root d i)) 1 divs
    (recs, pre ++ (if showOutput then
      ["Successfully extracted " ++ toString recs.length ++ " questions"] else []))

/-! ### Concrete pages used by witnesses and counterexamples -/

/-- A page with one radio question labeled True / False through label
elements bound by for-attributes (scenario A of the specification). -/
def pageRadio : Node :=
  el "html" [] [
    el "div" [("class", "que")] [
      el "div" [("class", "qtext")] [.text "Is the sky blue"],
      el "div" [("class", "answer")] [
        el "input" [("type", "radio"), ("id", "r1")] [],
        el "label" [("for", "r1")] [.text "True"],
        el "input" [("type", "radio"), ("id", "r2")] [],
        el "label" [("for", "r2")] [.text "False"]]]]

/-- The record extracted from pageRadio. -/
def recordA : Record :=
  { number := 1, type := "True or False", question_text := "Is the sky blue",
    choices := ["True", "False"], blanks := [], metadata := [] }

/-- A page whose question text contains "blank" and whose answer area holds
a named checkbox: the checkbox fill-in-the-blank variant. -/
def pageC5 : Node :=
  el "html" [] [
    el "div" [("class", "que")] [
      el "div" [("class", "qtext")] [.text "Fill in the blank with the right word"],
      el "div" [("class", "answer")] [
        el "input" [("type", "checkbox"), ("name", "q1")] []]]]

/-- A page whose prompt contains a question-number phrase in the middle of
the text, not as a leading marker. -/
def pageC7 : Node :=
  el "html" [] [
    el "div" [("class", "que")] [
      el "div" [("class", "qtext")] [.text "What is DNA? Question 5 explains"],
      el "div" [("class", "answer")] [el "textarea" [] []]]]

/-- The question container of pageC7. -/
def queDivC7 : Node :=
  el "div" [("class", "que")] [
    el "div" [("class", "qtext")] [.text "What is DNA? Question 5 explains"],
    el "div" [("class", "answer")] [el "textarea" [] []]]

/-- Two selection lists with disjoint single options, for the cloze branch
of the select cascade. -/
def sel1 : Node := el "select" [] [el "option" [("value", "1")] [.text "Apple"]]

def sel2 : Node := el "select" [] [el "option" [("value", "2")] [.text "Banana"]]

def ansDivC8 : Node := el "div" [("class", "answer")] [sel1, sel2]

def qdC8 : Record :=
  { number := 1, type := "Unknown", question_text := "Pick words",
    choices := [], blanks := [], metadata := [] }

/-- A toy per-container parser that fails exactly on containers tagged
"bad": it stands for a parse that raises on one malformed container. -/
def parseToy : Nat → Ctx → Except Unit Record := fun i d =>
  if d.node.isNamed "bad" then Except.error ()
  else Except.ok { number := i, type := "Unknown", question_text := "ok",
                   choices := [], blanks := [], metadata := [] }

def badCtx : Ctx := ⟨el "bad" [] [], [], [], []⟩

def goodCtx : Ctx := ⟨el "good" [] [], [], [], []⟩

/-! ### Structure of the extraction loop -/

theorem extractLoop_append (parse : Nat → Ctx → Except Unit Record)
    (xs ys : List Ctx) : ∀ i : Nat,
    extractLoop parse i (xs ++ ys) =
      extractLoop parse i xs ++ extractLoop parse (i + xs.length) ys := by
  induction xs with
  | nil => intro i; simp [extractLoop]
  | cons x xs ih =>
    intro i
    have hlen : i + 1 + xs.length = i + (x :: xs).length := by
      simp only [List.length_cons]
      omega
    simp only [List.cons_append, extractLoop]
    cases hp : parse i x with
    | error e =>
      show extractLoop parse (i + 1) (xs ++ ys) =
        extractLoop parse (i + 1) xs ++ extractLoop parse (i + (x :: xs).length) ys
      rw [ih (i + 1), hlen]
    | ok r =>
      by_cases hq : r.question_text = ""
      · simp only [hq, ne_eq, not_true_eq_false, if_false]
        show extractLoop parse (i + 1) (xs ++ ys) =
          extractLoop parse (i + 1) xs ++ extractLoop parse (i + (x :: xs).length) ys
        rw [ih (i + 1), hlen]
      · simp only [hq, ne_eq, not_false_eq_true, if_true]
        show r :: extractLoop parse (i + 1) (xs ++ ys) =
          r :: extractLoop parse (i + 1) xs ++ extractLoop parse (i + (x :: xs).length) ys
        rw [ih (i + 1), hlen, List.cons_append]

theorem extractLoop_ok_eq (f : Nat → Ctx → Record) :
    ∀ (i : Nat) (ds : List Ctx),
    extractLoop (fun j d => Except.ok (f j d)) i ds =
      ((ds.enumFrom i).map (fun p => f p.1 p.2)).filter
        (fun r => decide (r.question_text ≠ "")) := by
  intro i ds
  induction ds generalizing i with
  | nil => simp [extractLoop]
  | cons d ds ih =>
    simp only [extractLoop, List.enumFrom, List.map_cons, List.filter_cons]
    by_cases hq : (f i d).question_text = "" <;> simp [hq, ih]

/-- The guard on the answer container never fires (a Tag is always
truthy), so _parse_question always reaches type detection followed by the
final normalization. -/
theorem parseQuestion_eq (so : List String → List String) (root : Node)
    (d : Ctx) (i : Nat) :
    parseQuestion so root d i =
      { detectAndExtract so root (findAnswerContainer d) (baseRecord d i) with
        choices := cleanChoices
          (detectAndExtract so root (findAnswerContainer d) (baseRecord d i)).choices } := by
  simp [parseQuestion, tagTruthy]

theorem mem_extractQuestions {so : List String → List String} {root : Node}
    {r : Record} (hr : r ∈ extractQuestions so root) :
    ∃ i d, r = parseQuestion so root d i := by
  unfold extractQuestions at hr
  by_cases h : (queCtxs root).isEmpty
  · simp [h] at hr
  · simp only [h, Bool.false_eq_true, if_false] at hr
    rw [extractLoop_ok_eq] at hr
    have hm := List.mem_of_mem_filter hr
    obtain ⟨p, hp, hre⟩ := List.mem_map.mp hm
    exact ⟨p.1, p.2, hre.symm⟩

/-! ### C1 -/

/-- C1: every record returned by the whole-page extraction has nonempty
question text; the result has at most one record per detected container;
and the result is exactly the per-container parse results, in container
document order, filtered for nonempty question text (so records appear in
the document order of their originating containers). -/
theorem C1_extraction_shape (so : List String → List String) (root : Node) :
    (∀ r ∈ extractQuestions so root, r.question_text ≠ "") ∧
    (extractQuestions so root).length ≤ (queCtxs root).length ∧
    extractQuestions so root =
      (((queCtxs root).enumFrom 1).map (fun p => parseQuestion so root p.2 p.1)).filter
        (fun r => decide (r.question_text ≠ "")) := by
  have hmain : extractQuestions so root =
      (((queCtxs root).enumFrom 1).map (fun p => parseQuestion so root p.2 p.1)).filter
        (fun r => decide (r.question_text ≠ "")) := by
    unfold extractQuestions
    by_cases h : (queCtxs root).isEmpty
    · have h0 : queCtxs root = [] := by
        cases h' : queCtxs root with
        | nil => rfl
        | cons a l => rw [h'] at h; exact absurd h (by simp)
      simp [h, h0]
    · simp only [h, Bool.false_eq_true, if_false]
      exact extractLoop_ok_eq _ 1 _
  refine ⟨?_, ?_, hmain⟩
  · intro r hr
    rw [hmain] at hr
    have := List.of_mem_filter hr
    simpa using this
  · rw [hmain]
    calc ((((queCtxs root).enumFrom 1).map
            (fun p => parseQuestion so root p.2 p.1)).filter
            (fun r => decide (r.question_text ≠ ""))).length
        ≤ (((queCtxs root).enumFrom 1).map
            (fun p => parseQuestion so root p.2 p.1)).length :=
          List.length_filter_le _ _
      _ = (queCtxs root).length := by simp

/-- Witness for C1 at the concrete radio page. -/
theorem C1_witness :
    recordA ∈ extractQuestions (fun l => l) pageRadio ∧
    recordA.question_text ≠ "" ∧
    (extractQuestions (fun l => l) pageRadio).length ≤ (queCtxs pageRadio).length := by
  refine ⟨by decide, ?_, (C1_extraction_shape (fun l => l) pageRadio).2.1⟩
  exact (C1_extraction_shape (fun l => l) pageRadio).1 recordA (by decide)

/-! ### C3 -/

/-- C3 counterexample: with the first container failing, the loop keeps
the second container's original ordinal number 2, whereas iterating
without the failing container would number it 1 — so the surviving record
is not identical to the one produced with the failing container absent
from the iteration. -/
theorem C3_counterexample :
    parseToy 1 badCtx = Except.error () ∧
    extractLoop parseToy 1 [badCtx, goodCtx] ≠ extractLoop parseToy 1 [goodCtx] :=
  ⟨rfl, by decide⟩

/-- C3 amended: a container whose parse raises is skipped and no exception
escapes the loop; every other container is processed exactly as before,
with its original ordinal number (not renumbered as if the failing
container were absent): the result is the concatenation of the loop over
the preceding containers and the loop over the following containers at
their original indices. -/
theorem C3_skip_isolated (parse : Nat → Ctx → Except Unit Record)
    (pre post : List Ctx) (d : Ctx) (i : Nat)
    (h : parse (i + pre.length) d = Except.error ()) :
    extractLoop parse i (pre ++ d :: post) =
      extractLoop parse i pre ++ extractLoop parse (i + pre.length + 1) post := by
  rw [extractLoop_append]
  congr 1
  show extractLoop parse (i + pre.length) (d :: post) = _
  simp only [extractLoop, h]

/-- Witness for the amended C3. -/
theorem C3_witness :
    parseToy (1 + ([] : List Ctx).length) badCtx = Except.error () ∧
    extractLoop parseToy 1 ([] ++ badCtx :: [goodCtx]) =
      extractLoop parseToy 1 [] ++
        extractLoop parseToy (1 + ([] : List Ctx).length + 1) [goodCtx] :=
  ⟨rfl, C3_skip_isolated parseToy [] [goodCtx] badCtx 1 rfl⟩

/-! ### C2 -/

theorem pyStripList_eq (cs : List Char) :
    pyStripList cs = (cs.dropWhile pySpace).rdropWhile pySpace := rfl

theorem pyStripList_idem (cs : List Char) :
    pyStripList (pyStripList cs) = pyStripList cs := by
  rw [pyStripList_eq, pyStripList_eq]
  have hYfix : (cs.dropWhile pySpace).dropWhile pySpace = cs.dropWhile pySpace :=
    List.dropWhile_idempotent _ _
  have hpre : (cs.dropWhile pySpace).rdropWhile pySpace <+: cs.dropWhile pySpace :=
    List.rdropWhile_prefix _ _
  have hfix2 : ((cs.dropWhile pySpace).rdropWhile pySpace).dropWhile pySpace =
      (cs.dropWhile pySpace).rdropWhile pySpace := by
    rw [List.dropWhile_eq_self_iff]
    intro hl
    have h0 : (0 : Nat) < (cs.dropWhile pySpace).length :=
      lt_of_lt_of_le hl hpre.length_le
    have hget : ((cs.dropWhile pySpace).rdropWhile pySpace).get ⟨0, hl⟩ =
        (cs.dropWhile pySpace).get ⟨0, h0⟩ := by
      have h' := List.IsPrefix.getElem hpre hl
      simpa [List.get_eq_getElem] using h'
    rw [hget]
    exact (List.dropWhile_eq_self_iff).mp hYfix h0
  rw [hfix2, List.rdropWhile_idempotent]

theorem pyStrip_idem (s : String) : pyStrip (pyStrip s) = pyStrip s := by
  show String.mk (pyStripList (String.toList (String.mk (pyStripList s.toList)))) =
    String.mk (pyStripList s.toList)
  rw [show String.toList (String.mk (pyStripList s.toList)) = pyStripList s.toList from rfl,
    pyStripList_idem]

theorem string_ne_empty_of_length {s : String} (h : 1 ≤ s.length) : s ≠ "" := by
  intro he
  subst he
  simp at h

/-- The invariants of the final choice normalization: every output entry is
trimmed, nonempty, not a "none" or "n/a" marker and absent from the seen
set; the output has no duplicates; and the output is a sublist of the
trimmed input, so first-seen order is preserved. -/
theorem cleanChoicesGo_props :
    ∀ (l seen : List String),
      (∀ c ∈ cleanChoicesGo seen l,
        pyStrip c = c ∧ c ≠ "" ∧ lowerStr c ≠ "none" ∧ lowerStr c ≠ "n/a" ∧
          seen.contains c = false) ∧
      (cleanChoicesGo seen l).Nodup ∧
      List.Sublist (cleanChoicesGo seen l) (l.map pyStrip) := by
  intro l
  induction l with
  | nil => intro seen; exact ⟨by simp [cleanChoicesGo], by simp [cleanChoicesGo], by simp [cleanChoicesGo]⟩
  | cons c0 rest ih =>
    intro seen
    by_cases h1 : (pyStrip c0).length < 1
    · have he : cleanChoicesGo seen (c0 :: rest) = cleanChoicesGo seen rest := by
        simp only [cleanChoicesGo, if_pos h1]
      rw [he]
      exact ⟨(ih seen).1, (ih seen).2.1, List.Sublist.cons _ (ih seen).2.2⟩
    · by_cases h2 : (["", "none", "n/a"] : List String).contains (lowerStr (pyStrip c0)) = true
      · have he : cleanChoicesGo seen (c0 :: rest) = cleanChoicesGo seen rest := by
          simp only [cleanChoicesGo, if_neg h1, if_pos h2]
        rw [he]
        exact ⟨(ih seen).1, (ih seen).2.1, List.Sublist.cons _ (ih seen).2.2⟩
      · by_cases h3 : seen.contains (pyStrip c0) = true
        · have he : cleanChoicesGo seen (c0 :: rest) = cleanChoicesGo seen rest := by
            simp only [cleanChoicesGo, if_neg h1, if_neg h2, if_pos h3]
          rw [he]
          exact ⟨(ih seen).1, (ih seen).2.1, List.Sublist.cons _ (ih seen).2.2⟩
        · have he : cleanChoicesGo seen (c0 :: rest) =
              pyStrip c0 :: cleanChoicesGo (pyStrip c0 :: seen) rest := by
            simp only [cleanChoicesGo, if_neg h1, if_neg h2, if_neg h3]
          rw [he]
          have ihr := ih (pyStrip c0 :: seen)
          refine ⟨?_, ?_, ?_⟩
          · intro c hc
            rcases List.mem_cons.mp hc with hc | hc
            · subst hc
              refine ⟨pyStrip_idem c0, ?_, ?_, ?_, ?_⟩
              · exact string_ne_empty_of_length (by omega)
              · intro heq
                rw [heq] at h2
                exact h2 (by decide)
              · intro heq
                rw [heq] at h2
                exact h2 (by decide)
              · exact Bool.eq_false_iff.mpr h3
            · obtain ⟨p1, p2, p3, p4, p5⟩ := ihr.1 c hc
              refine ⟨p1, p2, p3, p4, ?_⟩
              have : ((pyStrip c0 :: seen).contains c) = false := p5
              simp only [List.contains_cons, Bool.or_eq_false_iff] at this
              exact this.2
          · refine List.Nodup.cons ?_ ihr.2.1
            intro hmem
            have p5 := (ihr.1 _ hmem).2.2.2.2
            simp only [List.contains_cons, Bool.or_eq_false_iff] at p5
            have := p5.1
            simp at this
          · exact List.Sublist.cons₂ _ ihr.2.2

/-- C2: in every record of an extraction result, the choices list has no
duplicate entries (exact case-sensitive match), no entry that is empty
after trimming (every entry is its own trim and nonempty), no entry whose
lowercased form is "none" or "n/a"; and it is the final normalization of
the raw choice list, a sublist of the trimmed raw entries, so surviving
entries keep their first-seen order. -/
theorem C2_choices_clean (so : List String → List String) (root : Node) :
    ∀ r ∈ extractQuestions so root,
      r.choices.Nodup ∧
      (∀ c ∈ r.choices,
        pyStrip c = c ∧ c ≠ "" ∧ lowerStr c ≠ "none" ∧ lowerStr c ≠ "n/a") ∧
      ∃ raw : List String, r.choices = cleanChoices raw ∧ List.Sublist r.choices (raw.map pyStrip) := by
  intro r hr
  obtain ⟨i, d, rfl⟩ := mem_extractQuestions hr
  rw [parseQuestion_eq]
  have hprops := cleanChoicesGo_props
    ((detectAndExtract so root (findAnswerContainer d) (baseRecord d i)).choices) []
  refine ⟨hprops.2.1, ?_, ?_⟩
  · intro c hc
    obtain ⟨p1, p2, p3, p4, _⟩ := hprops.1 c hc
    exact ⟨p1, p2, p3, p4⟩
  · exact ⟨_, rfl, hprops.2.2⟩

/-- Witness for C2 at the concrete radio page. -/
theorem C2_witness :
    recordA ∈ extractQuestions (fun l => l) pageRadio ∧ recordA.choices.Nodup :=
  ⟨by decide, (C2_choices_clean (fun l => l) pageRadio recordA (by decide)).1⟩

/-! ### C5 -/

theorem extractRadioChoices_fields (root : Node) (radios : List Ctx) (qd : Record) :
    (extractRadioChoices root radios qd).blanks = qd.blanks ∧
    (extractRadioChoices root radios qd).choices = radioChoicesOf root radios ∧
    (extractRadioChoices root radios qd).type =
      (if radioIsTF (radioChoicesOf root radios) then "True or False"
       else "Multiple Choice") := by
  unfold extractRadioChoices
  by_cases h : radioIsTF (radioChoicesOf root radios) = true <;> simp [h]

theorem selectBranchA_type {selects : List Node} {answerDiv : Node}
    {qd r : Record} (h : selectBranchA selects answerDiv qd = some r) :
    r.type = "Matching Type" := by
  cases selects with
  | nil => exact absurd h (by simp [selectBranchA])
  | cons first rest =>
    simp only [selectBranchA] at h
    split at h
    · split at h
      · have he := Option.some.inj h
        rw [← he]
      · exact absurd h (by simp)
    · exact absurd h (by simp)

theorem extractSelectChoices_blanks (so : List String → List String)
    (selects : List Node) (answerDiv : Node) (qd : Record) :
    (extractSelectChoices so selects answerDiv qd).blanks = qd.blanks ∨
    (extractSelectChoices so selects answerDiv qd).type = "Matching Type" ∨
    (extractSelectChoices so selects answerDiv qd).type = "Fill in the Blank (Cloze)" := by
  cases selects with
  | nil =>
    left
    rfl
  | cons first rest =>
    simp only [extractSelectChoices]
    split
    · left
      rfl
    · split
      · next r hB =>
        right
        left
        exact selectBranchA_type hB
      · split
        · right
          left
          rfl
        · right
          right
          rfl

theorem extractCheckboxChoices_blanks (root : Node) (cbs : List Ctx) (qd : Record) :
    (extractCheckboxChoices root cbs qd).blanks = qd.blanks ∨
    (extractCheckboxChoices root cbs qd).type = "Fill in the Blank (Checkbox)" := by
  unfold extractCheckboxChoices
  split
  · right
    rfl
  · left
    rfl

/-- Which branches of the dispatch can change the blanks field: only the
matching, cloze and checkbox-blank branches do, and those set the
corresponding types. -/
theorem detectAndExtract_blanks (so : List String → List String) (root : Node)
    (answer : Ctx) (qd : Record) :
    (detectAndExtract so root answer qd).blanks = qd.blanks ∨
    (detectAndExtract so root answer qd).type = "Matching Type" ∨
    (detectAndExtract so root answer qd).type = "Fill in the Blank (Cloze)" ∨
    (detectAndExtract so root answer qd).type = "Fill in the Blank (Checkbox)" := by
  unfold detectAndExtract
  split
  · left
    exact (extractRadioChoices_fields root (answerRadios answer) qd).1
  · split
    · rcases extractSelectChoices_blanks so (answerSelects answer) answer.node qd with
        h | h | h
      · exact Or.inl h
      · exact Or.inr (Or.inl h)
      · exact Or.inr (Or.inr (Or.inl h))
    · split
      · rcases extractCheckboxChoices_blanks root (answerCheckboxes answer) qd with h | h
        · exact Or.inl h
        · exact Or.inr (Or.inr (Or.inr h))
      · split
        · left
          by_cases hk : ((["identify", "who is", "what is", "name the", "who are",
              "what are", "give the name", "state the name", "mention the name"] :
              List String).any (fun k => strContains (lowerStr qd.question_text) k)) = true <;>
            simp [classifyTextInput, hk]
        · split
          · left
            rfl
          · left
            rfl

/-- C5 counterexample: a checkbox question whose text contains "blank"
produces a record whose type is the checkbox fill-in-the-blank variant —
neither Cloze nor Matching — with a nonempty blanks sequence. -/
theorem C5_counterexample :
    extractQuestions (fun l => l) pageC5 =
      [{ number := 1, type := "Fill in the Blank (Checkbox)",
         question_text := "Fill in the blank with the right word",
         choices := [], blanks := ["Blank 1"], metadata := [] }] ∧
    "Fill in the Blank (Checkbox)" ≠ "Fill in the Blank (Cloze)" ∧
    "Fill in the Blank (Checkbox)" ≠ "Matching Type" ∧
    (["Blank 1"] : List String) ≠ ([] : List String) :=
  ⟨by rfl, by decide, by decide, by decide⟩

/-- C5 amended: in every extracted record, blanks is empty unless the type
is Cloze, Matching, or the checkbox fill-in-the-blank variant "Fill in the
Blank (Checkbox)" (which also synthesizes blank placeholders). -/
theorem C5_blanks_empty (so : List String → List String) (root : Node) :
    ∀ r ∈ extractQuestions so root,
      r.type ≠ "Fill in the Blank (Cloze)" → r.type ≠ "Matching Type" →
      r.type ≠ "Fill in the Blank (Checkbox)" → r.blanks = [] := by
  intro r hr h1 h2 h3
  obtain ⟨i, d, rfl⟩ := mem_extractQuestions hr
  rw [parseQuestion_eq] at h1 h2 h3 ⊢
  rcases detectAndExtract_blanks so root (findAnswerContainer d) (baseRecord d i) with
    h | h | h | h
  · exact h
  · exact absurd h h2
  · exact absurd h h1
  · exact absurd h h3

/-- Witness for the amended C5: the True/False radio record has empty
blanks. -/
theorem C5_witness :
    recordA ∈ extractQuestions (fun l => l) pageRadio ∧ recordA.blanks = [] :=
  ⟨by decide,
    C5_blanks_empty (fun l => l) pageRadio recordA (by decide)
      (by decide) (by decide) (by decide)⟩

/-! ### C6 -/

/-- Spec-side statement of the True/False pair condition: the lowercased
forms of the two choices are one of the pairs true/false, yes/no or
correct/incorrect, in either order. -/
def tfPair (a b : String) : Prop :=
  (lowerStr a = "true" ∧ lowerStr b = "false") ∨
  (lowerStr a = "false" ∧ lowerStr b = "true") ∨
  (lowerStr a = "yes" ∧ lowerStr b = "no") ∨
  (lowerStr a = "no" ∧ lowerStr b = "yes") ∨
  (lowerStr a = "correct" ∧ lowerStr b = "incorrect") ∨
  (lowerStr a = "incorrect" ∧ lowerStr b = "correct")

instance (a b : String) : Decidable (tfPair a b) := by
  unfold tfPair
  infer_instance

/-- On a two-element list, containing both members of a pair of distinct
values is the same as being that pair in one of the two orders. -/
theorem pair_mem_iff (la lb x y : String) (hxy : x ≠ y) :
    ((x = la ∨ x = lb) ∧ (y = la ∨ y = lb)) ↔
      ((la = x ∧ lb = y) ∨ (la = y ∧ lb = x)) := by
  constructor
  · rintro ⟨hx | hx, hy | hy⟩
    · exact absurd (hx.trans hy.symm) hxy
    · exact Or.inl ⟨hx.symm, hy.symm⟩
    · exact Or.inr ⟨hy.symm, hx.symm⟩
    · exact absurd (hx.trans hy.symm) hxy
  · rintro (⟨h1, h2⟩ | ⟨h1, h2⟩)
    · exact ⟨Or.inl h1.symm, Or.inr h2.symm⟩
    · exact ⟨Or.inr h2.symm, Or.inl h1.symm⟩

/-- The code's membership-based test is equivalent to the spec's
order-independent pair condition on a two-element deduplicated list. -/
theorem contains_pair_iff (la lb x : String) :
    (([la, lb] : List String).contains x = true) ↔ (x = la ∨ x = lb) := by
  simp [List.contains_cons]

theorem radioIsTF_iff (l : List String) :
    radioIsTF l = true ↔ ∃ a b, l = [a, b] ∧ tfPair a b := by
  constructor
  · intro h
    simp only [radioIsTF] at h
    rw [Bool.and_eq_true] at h
    obtain ⟨hlen, hcond⟩ := h
    have hl2 : l.length = 2 := by simpa using hlen
    match l, hl2 with
    | [a, b], _ =>
      refine ⟨a, b, rfl, ?_⟩
      unfold tfPair
      have ne1 : ("true" : String) ≠ "false" := by decide
      have ne2 : ("yes" : String) ≠ "no" := by decide
      have ne3 : ("correct" : String) ≠ "incorrect" := by decide
      rcases (Bool.or_eq_true _ _).mp hcond with hc | hc
      · rcases (Bool.or_eq_true _ _).mp hc with hc | hc
        · obtain ⟨ht, hf⟩ := (Bool.and_eq_true _ _).mp hc
          have hp := (pair_mem_iff (lowerStr a) (lowerStr b) "true" "false" ne1).mp
            ⟨(contains_pair_iff (lowerStr a) (lowerStr b) "true").mp ht,
             (contains_pair_iff (lowerStr a) (lowerStr b) "false").mp hf⟩
          rcases hp with hp | hp
          · exact Or.inl hp
          · exact Or.inr (Or.inl hp)
        · obtain ⟨ht, hf⟩ := (Bool.and_eq_true _ _).mp hc
          have hp := (pair_mem_iff (lowerStr a) (lowerStr b) "yes" "no" ne2).mp
            ⟨(contains_pair_iff (lowerStr a) (lowerStr b) "yes").mp ht,
             (contains_pair_iff (lowerStr a) (lowerStr b) "no").mp hf⟩
          rcases hp with hp | hp
          · exact Or.inr (Or.inr (Or.inl hp))
          · exact Or.inr (Or.inr (Or.inr (Or.inl hp)))
      · obtain ⟨ht, hf⟩ := (Bool.and_eq_true _ _).mp hc
        have hp := (pair_mem_iff (lowerStr a) (lowerStr b) "correct" "incorrect" ne3).mp
          ⟨(contains_pair_iff (lowerStr a) (lowerStr b) "correct").mp ht,
           (contains_pair_iff (lowerStr a) (lowerStr b) "incorrect").mp hf⟩
        rcases hp with hp | hp
        · exact Or.inr (Or.inr (Or.inr (Or.inr (Or.inl hp))))
        · exact Or.inr (Or.inr (Or.inr (Or.inr (Or.inr hp))))
  · rintro ⟨a, b, rfl, hp⟩
    simp only [radioIsTF]
    rw [Bool.and_eq_true]
    refine ⟨by simp, ?_⟩
    unfold tfPair at hp
    rcases hp with ⟨h1, h2⟩ | ⟨h1, h2⟩ | ⟨h1, h2⟩ | ⟨h1, h2⟩ | ⟨h1, h2⟩ | ⟨h1, h2⟩ <;>
      simp [List.contains_cons, h1, h2]

/-- C6: for every answer area with radio controls, after label resolution
and exact-match deduplication the record type is TrueFalse exactly when
two distinct choices remain whose lowercased forms are the pair
true/false, yes/no or correct/incorrect in either order; in every other
case the type is MultipleChoice. -/
theorem C6_radio_truefalse (root : Node) (radios : List Ctx) (qd : Record) :
    ((extractRadioChoices root radios qd).type = "True or False" ↔
      ∃ a b, (extractRadioChoices root radios qd).choices = [a, b] ∧ tfPair a b) ∧
    ((extractRadioChoices root radios qd).type = "True or False" ∨
      (extractRadioChoices root radios qd).type = "Multiple Choice") := by
  obtain ⟨_, hch, hty⟩ := extractRadioChoices_fields root radios qd
  constructor
  · rw [hty, hch]
    by_cases hb : radioIsTF (radioChoicesOf root radios) = true
    · rw [if_pos hb]
      exact ⟨fun _ => (radioIsTF_iff _).mp hb, fun _ => rfl⟩
    · rw [if_neg hb]
      constructor
      · intro he
        exact absurd he (by decide)
      · intro hex
        exact absurd ((radioIsTF_iff _).mpr hex) hb
  · rw [hty]
    by_cases hb : radioIsTF (radioChoicesOf root radios) = true
    · rw [if_pos hb]
      exact Or.inl rfl
    · rw [if_neg hb]
      exact Or.inr rfl

/-- Scenario A checked end to end: two radios labeled True and False give
a TrueFalse record with choices in label order. -/
theorem scenarioA_eval :
    extractQuestions (fun l => l) pageRadio = [recordA] := by rfl

/-! ### C4 -/

theorem extractSelectChoices_type (so : List String → List String)
    (selects : List Node) (answerDiv : Node) (qd : Record)
    (hne : selects.isEmpty = false) :
    (extractSelectChoices so selects answerDiv qd).type = "Dropdown Select" ∨
    (extractSelectChoices so selects answerDiv qd).type = "Matching Type" ∨
    (extractSelectChoices so selects answerDiv qd).type = "Fill in the Blank (Cloze)" := by
  cases selects with
  | nil => simp at hne
  | cons first rest =>
    simp only [extractSelectChoices]
    split
    · left
      rfl
    · split
      · next r hB =>
        right
        left
        exact selectBranchA_type hB
      · split
        · right
          left
          rfl
        · right
          right
          rfl

theorem extractCheckboxChoices_type (root : Node) (cbs : List Ctx) (qd : Record) :
    (extractCheckboxChoices root cbs qd).type = "Multiple Select" ∨
    (extractCheckboxChoices root cbs qd).type = "Fill in the Blank (Checkbox)" := by
  unfold extractCheckboxChoices
  split
  · right
    rfl
  · left
    rfl

theorem classifyTextInput_type (qd : Record) :
    (classifyTextInput qd).type = "Identification" ∨
    (classifyTextInput qd).type = "Short Answer" := by
  by_cases hk : ((["identify", "who is", "what is", "name the", "who are",
      "what are", "give the name", "state the name", "mention the name"] :
      List String).any (fun k => strContains (lowerStr qd.question_text) k)) = true <;>
    simp [classifyTextInput, hk]

/-- C4: type detection is a priority-ordered decision list over the control
kinds of the answer area — radio, then select, then checkbox, then
single-line text input, then textarea; the first present kind determines
the record through its extraction routine alone (later rules are never
evaluated), and with no controls at all the record is returned unchanged,
keeping its Unknown type. -/
theorem C4_dispatch_order (so : List String → List String) (root : Node)
    (answer : Ctx) (qd : Record) :
    ((answerRadios answer).isEmpty = false →
      detectAndExtract so root answer qd =
        extractRadioChoices root (answerRadios answer) qd ∧
      ((detectAndExtract so root answer qd).type = "True or False" ∨
       (detectAndExtract so root answer qd).type = "Multiple Choice")) ∧
    ((answerRadios answer).isEmpty = true →
     (answerSelects answer).isEmpty = false →
      detectAndExtract so root answer qd =
        extractSelectChoices so (answerSelects answer) answer.node qd ∧
      ((detectAndExtract so root answer qd).type = "Dropdown Select" ∨
       (detectAndExtract so root answer qd).type = "Matching Type" ∨
       (detectAndExtract so root answer qd).type = "Fill in the Blank (Cloze)")) ∧
    ((answerRadios answer).isEmpty = true →
     (answerSelects answer).isEmpty = true →
     (answerCheckboxes answer).isEmpty = false →
      detectAndExtract so root answer qd =
        extractCheckboxChoices root (answerCheckboxes answer) qd ∧
      ((detectAndExtract so root answer qd).type = "Multiple Select" ∨
       (detectAndExtract so root answer qd).type = "Fill in the Blank (Checkbox)")) ∧
    ((answerRadios answer).isEmpty = true →
     (answerSelects answer).isEmpty = true →
     (answerCheckboxes answer).isEmpty = true →
     (answerTextInputs answer).isEmpty = false →
      detectAndExtract so root answer qd = classifyTextInput qd ∧
      ((detectAndExtract so root answer qd).type = "Identification" ∨
       (detectAndExtract so root answer qd).type = "Short Answer")) ∧
    ((answerRadios answer).isEmpty = true →
     (answerSelects answer).isEmpty = true →
     (answerCheckboxes answer).isEmpty = true →
     (answerTextInputs answer).isEmpty = true →
     (answerTextareas answer).isEmpty = false →
      detectAndExtract so root answer qd = { qd with type := "Essay" }) ∧
    ((answerRadios answer).isEmpty = true →
     (answerSelects answer).isEmpty = true →
     (answerCheckboxes answer).isEmpty = true →
     (answerTextInputs answer).isEmpty = true →
     (answerTextareas answer).isEmpty = true →
      detectAndExtract so root answer qd = qd) := by
  refine ⟨?_, ?_, ?_, ?_, ?_, ?_⟩
  · intro h1
    have he : detectAndExtract so root answer qd =
        extractRadioChoices root (answerRadios answer) qd := by
      unfold detectAndExtract
      simp [h1]
    refine ⟨he, ?_⟩
    rw [he]
    obtain ⟨_, _, hty⟩ := extractRadioChoices_fields root (answerRadios answer) qd
    rw [hty]
    by_cases hb : radioIsTF (radioChoicesOf root (answerRadios answer)) = true
    · rw [if_pos hb]
      exact Or.inl rfl
    · rw [if_neg hb]
      exact Or.inr rfl
  · intro h1 h2
    have he : detectAndExtract so root answer qd =
        extractSelectChoices so (answerSelects answer) answer.node qd := by
      unfold detectAndExtract
      simp [h1, h2]
    refine ⟨he, ?_⟩
    rw [he]
    exact extractSelectChoices_type so (answerSelects answer) answer.node qd h2
  · intro h1 h2 h3
    have he : detectAndExtract so root answer qd =
        extractCheckboxChoices root (answerCheckboxes answer) qd := by
      unfold detectAndExtract
      simp [h1, h2, h3]
    refine ⟨he, ?_⟩
    rw [he]
    exact extractCheckboxChoices_type root (answerCheckboxes answer) qd
  · intro h1 h2 h3 h4
    have he : detectAndExtract so root answer qd = classifyTextInput qd := by
      unfold detectAndExtract
      simp [h1, h2, h3, h4]
    refine ⟨he, ?_⟩
    rw [he]
    exact classifyTextInput_type qd
  · intro h1 h2 h3 h4 h5
    unfold detectAndExtract
    simp [h1, h2, h3, h4, h5]
  · intro h1 h2 h3 h4 h5
    unfold detectAndExtract
    simp [h1, h2, h3, h4, h5]

/-- The located question container and answer container of pageRadio. -/
def queCtxRadio : Ctx := (queCtxs pageRadio).headD ⟨pageRadio, [], [], []⟩

def ansCtxRadio : Ctx := findAnswerContainer queCtxRadio

/-- Witness for C4: on the radio page the first rule fires and the record
comes from radio extraction. -/
theorem C4_witness :
    (answerRadios ansCtxRadio).isEmpty = false ∧
    detectAndExtract (fun l => l) pageRadio ansCtxRadio (baseRecord queCtxRadio 1) =
      extractRadioChoices pageRadio (answerRadios ansCtxRadio)
        (baseRecord queCtxRadio 1) :=
  ⟨by rfl,
    ((C4_dispatch_order (fun l => l) pageRadio ansCtxRadio
      (baseRecord queCtxRadio 1)).1 (by rfl)).1⟩

/-! ### C7 -/

theorem matchQN_head {c : Char} {xs rem : List Char}
    (h : matchQN (c :: xs) = some rem) : c.toLower = 'q' := by
  unfold matchQN at h
  split at h
  next hs =>
    have hs' : (decide ('q' = c.toLower) &&
        startsWithCI ("uestion".toList) xs) = true := hs
    have := ((Bool.and_eq_true _ _).mp hs').1
    exact (of_decide_eq_true this).symm
  next => exact absurd h (by simp)

theorem matchQN_none_of_head {c : Char} (xs : List Char) (h : c.toLower ≠ 'q') :
    matchQN (c :: xs) = none := by
  cases hm : matchQN (c :: xs) with
  | none => rfl
  | some rem => exact absurd (matchQN_head hm) h

/-- C7 counterexample: the prompt "What is DNA? Question 5 explains" has
its mid-text "Question 5" phrase removed by text cleaning, although the
claim says a non-leading occurrence is left in place. -/
theorem C7_counterexample :
    extractQuestionText queDivC7 = "What is DNA? explains" ∧
    ("What is DNA? explains" : String) ≠ "What is DNA? Question 5 explains" :=
  ⟨by rfl, by decide⟩

/-- C7 amended: the Question-number rule is a global left-to-right pass
removing every occurrence of the pattern, wherever it occurs, not only a
leading one: an occurrence placed after any pattern-free text is removed
(first conjunct); the trailing-noise rules for "Not yet answered",
"Marked out of" and "Flag question" remove from their marker to the end of
the text, so their output is a front portion of the input (second
conjunct). -/
theorem C7_subQN_global :
    (∀ a m b : List Char, (∀ c ∈ a, c.toLower ≠ 'q') → matchQN (m ++ b) = some b →
      subQN (a ++ (m ++ b)) = a ++ subQN b) ∧
    (∀ markers cs, ∃ t, cutToEnd markers cs ++ t = cs) := by
  constructor
  · intro a m b ha hm
    induction a with
    | nil =>
      simp only [List.nil_append]
      cases m with
      | nil =>
        simp only [List.nil_append] at hm
        exact absurd (matchQN_length hm) (by simp)
      | cons c m' =>
        show subQNAux ((c :: (m' ++ b)).length) (c :: (m' ++ b)) = subQN b
        simp only [subQNAux]
        rw [show matchQN (c :: (m' ++ b)) = some b from hm]
        have hlt := matchQN_length hm
        simp only [List.cons_append, List.length_cons] at hlt ⊢
        exact subQNAux_eq_subQN _ _ (by omega)
    | cons c a' ih =>
      have hc := ha c (List.mem_cons_self c a')
      have hn : matchQN (c :: (a' ++ (m ++ b))) = none := matchQN_none_of_head _ hc
      have ih' := ih (fun x hx => ha x (List.mem_cons_of_mem c hx))
      show subQNAux ((c :: (a' ++ (m ++ b))).length) (c :: (a' ++ (m ++ b))) =
        (c :: a') ++ subQN b
      simp only [subQNAux]
      rw [hn]
      show c :: subQNAux (a' ++ (m ++ b)).length (a' ++ (m ++ b)) = c :: (a' ++ subQN b)
      rw [show subQNAux (a' ++ (m ++ b)).length (a' ++ (m ++ b)) =
            subQN (a' ++ (m ++ b)) from rfl, ih']
  · intro markers cs
    induction cs with
    | nil => exact ⟨[], rfl⟩
    | cons c rest ih =>
      unfold cutToEnd
      by_cases h : (markers.any fun m => startsWithCI m (c :: rest)) = true
      · rw [if_pos h]
        exact ⟨c :: rest, rfl⟩
      · rw [if_neg h]
        obtain ⟨t, ht⟩ := ih
        exact ⟨t, by rw [List.cons_append, ht]⟩

/-- Witness for the amended C7. -/
theorem C7_witness :
    matchQN ("Question 5 ".toList ++ "end".toList) = some ("end".toList) ∧
    subQN ("AB? ".toList ++ ("Question 5 ".toList ++ "end".toList)) =
      "AB? ".toList ++ subQN ("end".toList) :=
  ⟨by rfl,
    C7_subQN_global.1 ("AB? ".toList) ("Question 5 ".toList) ("end".toList)
      (by decide) (by rfl)⟩

/-! ### C8 -/

theorem listLtB_asymm : ∀ (a b : List Char), listLtB a b = true → listLtB b a = false := by
  intro a
  induction a with
  | nil =>
    intro b h
    cases b with
    | nil => simp [listLtB] at h
    | cons c cs => simp [listLtB]
  | cons x xs ih =>
    intro b h
    cases b with
    | nil => simp [listLtB] at h
    | cons y ys =>
      unfold listLtB at h ⊢
      by_cases h1 : x.toNat < y.toNat
      · have h2 : ¬ y.toNat < x.toNat := by omega
        simp [h1, h2]
      · by_cases h2 : y.toNat < x.toNat
        · simp [h1, h2] at h
        · simp only [h1, h2, if_false] at h ⊢
          exact ih ys h

theorem listLtB_trans_neg :
    ∀ (a b c : List Char), listLtB b a = false → listLtB c b = false →
      listLtB c a = false := by
  intro a
  induction a with
  | nil =>
    intro b c hba hcb
    cases c with
    | nil => rfl
    | cons z zs => rfl
  | cons x xs ih =>
    intro b c hba hcb
    cases b with
    | nil => simp [listLtB] at hba
    | cons y ys =>
      cases c with
      | nil => simp [listLtB] at hcb
      | cons z zs =>
        unfold listLtB at hba hcb ⊢
        by_cases hyx : y.toNat < x.toNat
        · simp [hyx] at hba
        · by_cases hzy : z.toNat < y.toNat
          · simp [hzy] at hcb
          · by_cases hzx : z.toNat < x.toNat
            · omega
            · simp only [hzx, if_false]
              by_cases hxz : x.toNat < z.toNat
              · simp [hxz]
              · simp only [hxz, if_false]
                have hxy : ¬ x.toNat < y.toNat := by omega
                have hyz : ¬ y.toNat < z.toNat := by omega
                simp only [hyx, hxy, if_false] at hba
                simp only [hzy, hyz, if_false] at hcb
                exact ih ys zs hba hcb

theorem strLeB_total (a b : String) : strLeB a b = true ∨ strLeB b a = true := by
  unfold strLeB
  by_cases h : listLtB b.toList a.toList = true
  · right
    show (!listLtB a.toList b.toList) = true
    rw [listLtB_asymm _ _ h]
    rfl
  · left
    show (!listLtB b.toList a.toList) = true
    rw [Bool.not_eq_true] at h
    rw [h]
    rfl

theorem strLeB_trans {a b c : String} (h1 : strLeB a b = true)
    (h2 : strLeB b c = true) : strLeB a c = true := by
  unfold strLeB at h1 h2 ⊢
  rw [Bool.not_eq_true'] at h1 h2 ⊢
  exact listLtB_trans_neg a.toList b.toList c.toList h1 h2

theorem mem_insertStr (x : String) :
    ∀ (l : List String) (a : String), a ∈ insertStr x l ↔ a = x ∨ a ∈ l := by
  intro l
  induction l with
  | nil => intro a; simp [insertStr]
  | cons h t ih =>
    intro a
    unfold insertStr
    by_cases hc : strLeB x h = true
    · rw [if_pos hc]
      simp [List.mem_cons]
    · rw [if_neg hc]
      simp only [List.mem_cons, ih]
      tauto

theorem pairwise_insertStr (x : String) :
    ∀ (l : List String), l.Pairwise (fun a b => strLeB a b = true) →
      (insertStr x l).Pairwise (fun a b => strLeB a b = true) := by
  intro l
  induction l with
  | nil => intro _; simp [insertStr]
  | cons h t ih =>
    intro hp
    rw [List.pairwise_cons] at hp
    obtain ⟨hh, ht⟩ := hp
    unfold insertStr
    by_cases hc : strLeB x h = true
    · rw [if_pos hc]
      refine List.Pairwise.cons ?_ (List.Pairwise.cons hh ht)
      intro y hy
      rcases List.mem_cons.mp hy with rfl | hy
      · exact hc
      · exact strLeB_trans hc (hh y hy)
    · rw [if_neg hc]
      refine List.Pairwise.cons ?_ (ih ht)
      intro y hy
      rcases (mem_insertStr x t y).mp hy with hxy | hy
      · rw [hxy]
        rcases strLeB_total x h with htot | htot
        · exact absurd htot hc
        · exact htot
      · exact hh y hy

theorem nodup_insertStr (x : String) :
    ∀ (l : List String), l.Nodup → x ∉ l → (insertStr x l).Nodup := by
  intro l
  induction l with
  | nil => intro _ _; simp [insertStr]
  | cons h t ih =>
    intro hnd hx
    rw [List.nodup_cons] at hnd
    obtain ⟨hht, htnd⟩ := hnd
    unfold insertStr
    by_cases hc : strLeB x h = true
    · rw [if_pos hc]
      refine List.Nodup.cons hx (List.Nodup.cons hht htnd)
    · rw [if_neg hc]
      refine List.Nodup.cons ?_ (ih htnd (fun hm => hx (List.mem_cons_of_mem h hm)))
      intro hm
      rcases (mem_insertStr x t h).mp hm with he | hm
      · exact hx (he ▸ List.mem_cons_self h t)
      · exact hht hm

theorem mem_sortStrings : ∀ (l : List String) (a : String),
    a ∈ sortStrings l ↔ a ∈ l := by
  intro l
  induction l with
  | nil => intro a; simp [sortStrings]
  | cons h t ih =>
    intro a
    unfold sortStrings
    rw [mem_insertStr, ih, List.mem_cons]

theorem pairwise_sortStrings (l : List String) :
    (sortStrings l).Pairwise (fun a b => strLeB a b = true) := by
  induction l with
  | nil => simp [sortStrings]
  | cons h t ih =>
    unfold sortStrings
    exact pairwise_insertStr h (sortStrings t) ih

theorem nodup_sortStrings (l : List String) (hnd : l.Nodup) :
    (sortStrings l).Nodup := by
  induction l with
  | nil => simp [sortStrings]
  | cons h t ih =>
    rw [List.nodup_cons] at hnd
    unfold sortStrings
    refine nodup_insertStr h (sortStrings t) (ih hnd.2) ?_
    rw [mem_sortStrings]
    exact hnd.1

theorem mem_dedupFirst : ∀ (l : List String) (a : String),
    a ∈ dedupFirst l ↔ a ∈ l := by
  intro l
  induction l with
  | nil => intro a; simp [dedupFirst]
  | cons h t ih =>
    intro a
    unfold dedupFirst
    rw [List.mem_cons, List.mem_cons]
    constructor
    · rintro (rfl | hm)
      · exact Or.inl rfl
      · exact Or.inr ((ih a).mp (List.mem_of_mem_filter hm))
    · rintro (rfl | hm)
      · exact Or.inl rfl
      · by_cases he : a = h
        · exact Or.inl he
        · refine Or.inr (List.mem_filter.mpr ⟨(ih a).mpr hm, ?_⟩)
          simp [he]

theorem nodup_dedupFirst : ∀ (l : List String), (dedupFirst l).Nodup := by
  intro l
  induction l with
  | nil => simp [dedupFirst]
  | cons h t ih =>
    unfold dedupFirst
    refine List.Nodup.cons ?_ (List.Nodup.filter _ ih)
    intro hm
    have := (List.mem_filter.mp hm).2
    simp at this

theorem mem_sortedDistinct (l : List String) (a : String) :
    a ∈ sortedDistinct l ↔ a ∈ l := by
  unfold sortedDistinct
  rw [mem_sortStrings, mem_dedupFirst]

theorem pairwise_sortedDistinct (l : List String) :
    (sortedDistinct l).Pairwise (fun a b => strLeB a b = true) :=
  pairwise_sortStrings (dedupFirst l)

theorem nodup_sortedDistinct (l : List String) : (sortedDistinct l).Nodup :=
  nodup_sortStrings (dedupFirst l) (nodup_dedupFirst l)

/-- C8: when the cloze branch of the select cascade is reached (the
matching attempt produced no usable items and the lists do not share one
option set), the record is classified Cloze with synthetic placeholders
Blank 1..N and with choices the distinct cleaned options of all lists in
ascending lexicographic order: sorted (pairwise ordered), duplicate-free,
and containing exactly the options of the individual lists. -/
theorem C8_cloze_branch (so : List String → List String) (selects : List Node)
    (answerDiv : Node) (qd : Record)
    (h1 : 2 ≤ selects.length)
    (h2 : selectBranchA selects answerDiv qd = none)
    (h3 : selectAllSame selects = false) :
    extractSelectChoices so selects answerDiv qd =
      { qd with type := "Fill in the Blank (Cloze)",
                blanks := (List.range selects.length).map
                  (fun i => "Blank " ++ toString (i + 1)),
                choices := sortedDistinct
                  ((List.map extractOptionsFromSelect selects).flatten) } ∧
    (extractSelectChoices so selects answerDiv qd).choices.Pairwise
      (fun x y => strLeB x y = true) ∧
    (extractSelectChoices so selects answerDiv qd).choices.Nodup ∧
    (∀ x, x ∈ (extractSelectChoices so selects answerDiv qd).choices ↔
      ∃ s ∈ selects, x ∈ extractOptionsFromSelect s) := by
  cases selects with
  | nil => simp at h1
  | cons first rest =>
    have hmain : extractSelectChoices so (first :: rest) answerDiv qd =
        { qd with type := "Fill in the Blank (Cloze)",
                  blanks := (List.range (first :: rest).length).map
                    (fun i => "Blank " ++ toString (i + 1)),
                  choices := sortedDistinct
                    ((List.map extractOptionsFromSelect (first :: rest)).flatten) } := by
      simp only [extractSelectChoices]
      have hne1 : rest.length + 1 ≠ 1 := by
        simp only [List.length_cons] at h1
        omega
      have hnum : ((rest.length + 1) == 1) = false := by
        simpa using hne1
      rw [hnum]
      simp only [Bool.false_eq_true, if_false]
      rw [h2]
      rw [h3]
      simp
    refine ⟨hmain, ?_, ?_, ?_⟩
    · rw [hmain]
      exact pairwise_sortedDistinct _
    · rw [hmain]
      exact nodup_sortedDistinct _
    · intro x
      rw [hmain]
      show x ∈ sortedDistinct ((List.map extractOptionsFromSelect (first :: rest)).flatten) ↔ _
      rw [mem_sortedDistinct, List.mem_flatten]
      constructor
      · rintro ⟨opts, hopts, hx⟩
        obtain ⟨s, hs, rfl⟩ := List.mem_map.mp hopts
        exact ⟨s, hs, hx⟩
      · rintro ⟨s, hs, hx⟩
        exact ⟨extractOptionsFromSelect s, List.mem_map.mpr ⟨s, hs, rfl⟩, hx⟩

/-- Witness for C8 at two single-option selection lists with disjoint
options. -/
theorem C8_witness :
    2 ≤ ([sel1, sel2] : List Node).length ∧
    selectBranchA [sel1, sel2] ansDivC8 qdC8 = none ∧
    selectAllSame [sel1, sel2] = false ∧
    extractSelectChoices (fun l => l) [sel1, sel2] ansDivC8 qdC8 =
      { qdC8 with type := "Fill in the Blank (Cloze)",
                  blanks := (List.range ([sel1, sel2] : List Node).length).map
                    (fun i => "Blank " ++ toString (i + 1)),
                  choices := sortedDistinct
                    ((List.map extractOptionsFromSelect [sel1, sel2]).flatten) } :=
  ⟨by decide, by rfl, by rfl,
    (C8_cloze_branch (fun l => l) [sel1, sel2] ansDivC8 qdC8
      (by decide) (by rfl) (by rfl)).1⟩

/-! ### C9 -/

/-- C9: extraction is a pure function of the page and of the (per-process,
fixed) set iteration order: two runs on the same page, with either value of
the logging flag, return identical record sequences. -/
theorem C9_deterministic (so : List String → List String) (b₁ b₂ : Bool)
    (root : Node) :
    (extractQuestionsRun so b₁ root).1 = (extractQuestionsRun so b₂ root).1 ∧
    (extractQuestionsRun so b₁ root).1 = extractQuestions so root := by
  unfold extractQuestionsRun extractQuestions
  by_cases h : (queCtxs root).isEmpty <;> simp [h]

/-! ### C10 -/

/-- _parse_question without the missing-answer-container guard: text
extraction, answer-area location, dispatch, final normalization. -/
def parseQuestionDirect (setOrder : List String → List String) (root : Node)
    (q : Ctx) (number : Nat) : Record :=
  let r := detectAndExtract setOrder root (findAnswerContainer q) (baseRecord q number)
  { r with choices := cleanChoices r.choices }

/-- C10: the answer-area locator is total — when none of the three marker
classes matches a descendant it returns the question container itself —
and since a Tag is always truthy, the missing-answer warning branch of
per-question parsing is unreachable: parsing always proceeds to type
detection (parseQuestion equals its guard-free version on every input). -/
theorem C10_answer_container_total :
    (∀ q : Ctx,
      (q.node.descCtx q.anc).find? (ansMarker "answer") = none →
      (q.node.descCtx q.anc).find? (ansMarker "formulation") = none →
      (q.node.descCtx q.anc).find? (ansMarker "ablock") = none →
      findAnswerContainer q = q) ∧
    (∀ (so : List String → List String) (root : Node) (q : Ctx) (n : Nat),
      parseQuestion so root q n = parseQuestionDirect so root q n) := by
  constructor
  · intro q h1 h2 h3
    unfold findAnswerContainer
    simp only [h1, h2, h3]
  · intro so root q n
    simp [parseQuestion, parseQuestionDirect, tagTruthy]

/-- A question container with no marker-classed descendant. -/
def qctxBare : Ctx :=
  ⟨el "div" [("class", "que")] [el "div" [("class", "qtext")] [.text "Hi"]],
    [], [], []⟩

/-- Witness for C10. -/
theorem C10_witness :
    (qctxBare.node.descCtx qctxBare.anc).find? (ansMarker "answer") = none ∧
    findAnswerContainer qctxBare = qctxBare :=
  ⟨by rfl, C10_answer_container_total.1 qctxBare (by rfl) (by rfl) (by rfl)⟩

end Lms
